import Mathlib

/-!
Shallow embedding of the map_tiles repository core
(`src/lib/geoUtils.ts`, `src/lib/idwInterpolation.ts`, `src/lib/cache.ts`,
and the grid generator of `src/unnamed/part_000`-style module).

Numbers: the TypeScript code computes over IEEE doubles.  The exact-rational
parts of the code (ray casting, grid lattice, rounding, color stops, cache
timestamps) are embedded over `ℚ`; the parts that call `Math.sqrt` /
`Math.pow` with a real exponent (`idwInterpolate`, `simplifyPolygon`) are
embedded over `ℝ` with `Real.sqrt` and real powers.
-/

namespace MapTiles

/-! ## Polygon geometry kernel - `src/lib/geoUtils.ts` -/

/-- A coordinate pair as the TS code stores it: `[lon, lat]`. -/
abbrev Point : Type := ℚ × ℚ

/-- A ring: `number[][]`. -/
abbrev Ring : Type := List Point

/-- A polygon: `number[][][]`, first element is the outer ring. -/
abbrev Polygon : Type := List Ring

/-- One iteration of the ray-casting loop body: edge from `coords[j]` to
`coords[i]`, testing `((yi > lat) !== (yj > lat)) &&
(lon < (xj - xi) * (lat - yi) / (yj - yi) + xi)`.
(Rational division by zero is `0` in Lean; the division is only reached when
`(yi > lat) ≠ (yj > lat)`, which forces `yi ≠ yj`, matching the JS
short-circuit `&&`.) -/
def edgeCrosses (lon lat : ℚ) (pi pj : Point) : Bool :=
  let xi := pi.1
  let yi := pi.2
  let xj := pj.1
  let yj := pj.2
  (decide (yi > lat) != decide (yj > lat)) &&
    decide (lon < (xj - xi) * (lat - yi) / (yj - yi) + xi)

/-- `isPointInPolygon(point, polygon)`: guard
`!polygon || !polygon[0] || polygon[0].length < 3` returns `false`;
otherwise ray casting over the first ring with index pairs
`(i, j) = (0, n-1), (1, 0), ..., (n-1, n-2)`; the `j`-sequence is
`last :: dropLast`. -/
def isPointInPolygon (point : Point) (polygon : Polygon) : Bool :=
  match polygon with
  | [] => false
  | coords :: _ =>
    if coords.length < 3 then false
    else
      let js := coords.getLastD (0, 0) :: coords.dropLast
      (coords.zip js).foldl
        (fun inside pij =>
          if edgeCrosses point.1 point.2 pij.1 pij.2 then !inside else inside)
        false

/-- A GeoJSON feature as the code probes it: `feature.geometry &&
feature.geometry.coordinates`; `none` models a missing geometry or missing
coordinates. -/
structure Feature where
  coordinates : Option Polygon

/-- The two shapes `isPointInAnyPolygon` handles: a FeatureCollection
(`boundaries.type === 'FeatureCollection' && boundaries.features`) or a
single Feature (`boundaries.geometry && boundaries.geometry.coordinates`). -/
inductive Boundary where
  | featureCollection (features : List Feature)
  | feature (f : Feature)

/-- `isPointInFeature(point, feature)`. -/
def isPointInFeature (point : Point) (f : Feature) : Bool :=
  match f.coordinates with
  | some c => isPointInPolygon point c
  | none => false

/-- `isPointInAnyPolygon(point, boundaries)`: `features.some(...)` over a
collection, or the single-feature test (the per-feature body is the same
check `isPointInFeature` performs). -/
def isPointInAnyPolygon (point : Point) (b : Boundary) : Bool :=
  match b with
  | .featureCollection fs => fs.any (isPointInFeature point)
  | .feature f => isPointInFeature point f

/-- Result record of `getBoundingBox`. -/
structure BBox where
  minLat : ℚ
  maxLat : ℚ
  minLon : ℚ
  maxLon : ℚ
deriving DecidableEq, Repr

/-- `getBoundingBox(polygon)`: guard
`!polygon || !polygon[0] || polygon[0].length === 0` returns the fixed
default box; otherwise min/max folds over the first ring.  (The JS folds are
seeded with `±Infinity`; for the nonempty ring reaching that branch this
equals folding from the first coordinate, which is how it is written here
since `ℚ` has no infinities.) -/
def getBoundingBox (polygon : Polygon) : BBox :=
  match polygon with
  | [] => ⟨51.8, 55.2, 66.0, 72.0⟩
  | [] :: _ => ⟨51.8, 55.2, 66.0, 72.0⟩
  | (p :: ps) :: _ =>
    { minLat := ps.foldl (fun m q => min m q.2) p.2
      maxLat := ps.foldl (fun m q => max m q.2) p.2
      minLon := ps.foldl (fun m q => min m q.1) p.1
      maxLon := ps.foldl (fun m q => max m q.1) p.1 }

/-! ## Grid generator - `generatePavlodarGrid` / `generateFallbackGrid` -/

/-- `Math.round(x * 100) / 100`: JS `Math.round` rounds half toward `+∞`,
which is Mathlib's `round` (`⌊x + 1/2⌋`). -/
def roundTo2 (x : ℚ) : ℚ := ((round (x * 100) : ℤ) : ℚ) / 100

/-- Rounding to 3 decimals, `Math.round(x * 1000) / 1000`; used only to state
the spec's "3 decimal places" claim, the code itself rounds to 2. -/
def roundTo3 (x : ℚ) : ℚ := ((round (x * 1000) : ℤ) : ℚ) / 1000

/-- Number of iterations of `for (let v = lo; v <= hi; v += step)`:
all `k` with `lo + k * step ≤ hi`.  For `step ≤ 0` the JS loop never
terminates (when `lo ≤ hi`); the embedding returns `0` iterations there and
every claim about the grid assumes `0 < step`. -/
def latticeCount (lo hi step : ℚ) : ℕ :=
  if step ≤ 0 then 0
  else if hi < lo then 0
  else (⌊(hi - lo) / step⌋).toNat + 1

/-- The values visited by `for (let v = lo; v <= hi; v += step)`, in order. -/
def latticeVals (lo hi step : ℚ) : List ℚ :=
  (List.range (latticeCount lo hi step)).map (fun k : ℕ => lo + (k : ℚ) * step)

/-- `GridPoint` interface. -/
structure GridPoint where
  lat : ℚ
  lon : ℚ
deriving DecidableEq, Repr

/-- `generateFallbackGrid(step)`: full lattice over the hardcoded box
lat `[51.8, 55.2]`, lon `[66.0, 72.0]`, every point pushed with coordinates
rounded to 2 decimals, no polygon filtering. -/
def generateFallbackGrid (step : ℚ) : List GridPoint :=
  (latticeVals 51.8 55.2 step).foldl
    (fun grid lat =>
      (latticeVals 66.0 72.0 step).foldl
        (fun grid lon => grid ++ [⟨roundTo2 lat, roundTo2 lon⟩]) grid)
    []

/-- `generatePavlodarGrid(step, boundary)`: no boundary falls back to
`generateFallbackGrid(step)`; otherwise the nested lattice loop over the
hardcoded bounding box pushes `{lat: Math.round(lat*100)/100, lon: ...}`
for every lattice point with `isPointInAnyPolygon([lon, lat], boundary)`. -/
def generatePavlodarGrid (step : ℚ) (boundary : Option Boundary) : List GridPoint :=
  match boundary with
  | none => generateFallbackGrid step
  | some b =>
    (latticeVals 51.8 55.2 step).foldl
      (fun grid lat =>
        (latticeVals 66.0 72.0 step).foldl
          (fun grid lon =>
            if isPointInAnyPolygon (lon, lat) b then
              grid ++ [⟨roundTo2 lat, roundTo2 lon⟩]
            else grid)
          grid)
      []

/-! ## Color scales - `getMoistureColor` / `getTemperatureColor` -/

/-- One entry of a color-stop table. -/
structure ColorStop where
  value : ℚ
  r : ℤ
  g : ℤ
  b : ℤ
deriving DecidableEq, Repr

/-- An RGB record; the channels come out of `Math.round`, hence integers. -/
structure RGB where
  r : ℤ
  g : ℤ
  b : ℤ
deriving DecidableEq, Repr

/-- The moisture color-stop table of `getMoistureColor`. -/
def moistureStops : List ColorStop :=
  [⟨0, 92, 51, 23⟩, ⟨5, 139, 69, 19⟩, ⟨10, 210, 105, 30⟩, ⟨15, 255, 140, 0⟩,
   ⟨20, 255, 215, 0⟩, ⟨25, 154, 205, 50⟩, ⟨30, 50, 205, 50⟩, ⟨35, 0, 204, 102⟩,
   ⟨40, 0, 206, 209⟩, ⟨45, 65, 105, 225⟩, ⟨50, 0, 0, 255⟩, ⟨60, 0, 0, 139⟩,
   ⟨100, 0, 0, 100⟩]

/-- The temperature color-stop table of `getTemperatureColor`. -/
def temperatureStops : List ColorStop :=
  [⟨-10, 0, 0, 255⟩, ⟨0, 135, 206, 235⟩, ⟨10, 144, 238, 144⟩,
   ⟨20, 255, 255, 0⟩, ⟨30, 255, 140, 0⟩, ⟨40, 255, 69, 0⟩]

/-- The bracket-search loop
`for i: if (v >= stops[i].value && v <= stops[i+1].value) break` over the
consecutive pairs, returning the default pair `(stops[0], stops[last])` when
no pair brackets `v`. -/
def findStops (v : ℚ) (dflt : ColorStop × ColorStop) :
    List ColorStop → ColorStop × ColorStop
  | s1 :: s2 :: rest =>
    if v ≥ s1.value ∧ v ≤ s2.value then (s1, s2)
    else findStops v dflt (s2 :: rest)
  | _ => dflt

/-- `Math.round(lower + factor * (upper - lower))` for one channel. -/
def interpChannel (l u : ℤ) (factor : ℚ) : ℤ :=
  round ((l : ℚ) + factor * ((u : ℚ) - (l : ℚ)))

/-- The shared tail of `getMoistureColor` and `getTemperatureColor` (the two
functions repeat it verbatim): find the bracketing stops, compute
`factor = range === 0 ? 0 : (v - lower.value) / range`, round each channel. -/
def stopInterpolate (stops : List ColorStop) (clampedValue : ℚ) : RGB :=
  let dflt := (stops.headD ⟨0, 0, 0, 0⟩, stops.getLastD ⟨0, 0, 0, 0⟩)
  let lu := findStops clampedValue dflt stops
  let lowerStop := lu.1
  let upperStop := lu.2
  let range := upperStop.value - lowerStop.value
  let factor := if range = 0 then 0 else (clampedValue - lowerStop.value) / range
  ⟨interpChannel lowerStop.r upperStop.r factor,
   interpChannel lowerStop.g upperStop.g factor,
   interpChannel lowerStop.b upperStop.b factor⟩

/-- `getMoistureColor(value)`: clamp `Math.max(0, Math.min(100, value))`,
then stop interpolation over `moistureStops`. -/
def getMoistureColor (value : ℚ) : RGB :=
  stopInterpolate moistureStops (max 0 (min 100 value))

/-- `getTemperatureColor(value)`: clamp `Math.max(-10, Math.min(40, value))`,
then stop interpolation over `temperatureStops`. -/
def getTemperatureColor (value : ℚ) : RGB :=
  stopInterpolate temperatureStops (max (-10) (min 40 value))

/-! ## Cache - `src/lib/cache.ts` -/

/-- `CacheItem<T>`; times are `Date.now()` milliseconds. -/
structure CacheItem (α : Type) where
  data : α
  timestamp : ℤ
  expiresAt : ℤ

/-- The backing `Map<string, CacheItem>` as an insertion-ordered entry
list. -/
abbrev CacheMap (α : Type) : Type := List (String × CacheItem α)

/-- `private readonly defaultTTL = 3600000`. -/
def defaultTTL : ℤ := 3600000

/-- JS `Map.prototype.set`: replace in place when the key exists, else
append. -/
def mapSet {α : Type} : CacheMap α → String → CacheItem α → CacheMap α
  | [], k, item => [(k, item)]
  | e :: rest, k, item =>
    if e.1 = k then (k, item) :: rest else e :: mapSet rest k item

/-- JS `Map.prototype.get`. -/
def mapGet {α : Type} (m : CacheMap α) (k : String) : Option (CacheItem α) :=
  (m.find? (fun e => e.1 == k)).map (fun e => e.2)

/-- JS `Map.prototype.delete` (a `Map` holds the key at most once). -/
def mapDelete {α : Type} (m : CacheMap α) (k : String) : CacheMap α :=
  m.eraseP (fun e => e.1 == k)

/-- `Cache.set(key, data, ttl?)` with `Date.now()` passed explicitly:
`expiresAt = now + (ttl || defaultTTL)` (JS `||`: an absent or `0` ttl means
the default). -/
def cacheSet {α : Type} (m : CacheMap α) (now : ℤ) (key : String) (data : α)
    (ttl : Option ℤ) : CacheMap α :=
  let expiresAt := now +
    (match ttl with
     | some t => if t = 0 then defaultTTL else t
     | none => defaultTTL)
  mapSet m key ⟨data, now, expiresAt⟩

/-- `Cache.get(key)` with `Date.now()` passed explicitly: a missing entry is
`null`; `now > expiresAt` deletes the entry and returns `null`; otherwise the
stored data.  Returns the value together with the post-call store. -/
def cacheGet {α : Type} (m : CacheMap α) (now : ℤ) (key : String) :
    Option α × CacheMap α :=
  match mapGet m key with
  | none => (none, m)
  | some item =>
    if now > item.expiresAt then (none, mapDelete m key)
    else (some item.data, m)

/-! ## IDW interpolation - `src/lib/idwInterpolation.ts`

`idwInterpolate` calls `Math.sqrt` and `Math.pow(distance, power)` with a
real `power`, so this part of the embedding lives in `ℝ` (with classical
decidability for the comparisons). -/

/-- One element of `dataPoints: Array<{lat, lon, value}>`. -/
structure Sample where
  lat : ℝ
  lon : ℝ
  value : ℝ

open Classical in
/-- The `for (const point of dataPoints)` loop of `idwInterpolate`, with the
running `weightSum`, `valueSum`, `hasNearbyPoints` state explicit:
skip a point when `distance > maxDistance`; return `point.value` when
`distance < 0.001`; otherwise accumulate `weight = 1 / distance^power`
(the base is `≥ 0.001 > 0` there, so `Math.pow` is the real power
`Real.rpow`); after the loop, `!hasNearbyPoints || weightSum === 0` gives
`null`, else `valueSum / weightSum`. -/
noncomputable def idwLoop (targetLat targetLon power maxDistance : ℝ) :
    List Sample → ℝ → ℝ → Bool → Option ℝ
  | [], weightSum, valueSum, hasNearbyPoints =>
    if hasNearbyPoints = false ∨ weightSum = 0 then none
    else some (valueSum / weightSum)
  | point :: rest, weightSum, valueSum, hasNearbyPoints =>
    let distance :=
      Real.sqrt ((targetLat - point.lat) ^ 2 + (targetLon - point.lon) ^ 2)
    if distance > maxDistance then
      idwLoop targetLat targetLon power maxDistance rest
        weightSum valueSum hasNearbyPoints
    else if distance < 0.001 then some point.value
    else
      let weight := 1 / Real.rpow distance power
      idwLoop targetLat targetLon power maxDistance rest
        (weightSum + weight) (valueSum + weight * point.value) true

/-- `idwInterpolate(targetLat, targetLon, dataPoints, power = 2,
maxDistance = 2.0)`; `none` is the TS `null`. -/
noncomputable def idwInterpolate (targetLat targetLon : ℝ)
    (dataPoints : List Sample) (power : ℝ := 2) (maxDistance : ℝ := 2.0) :
    Option ℝ :=
  idwLoop targetLat targetLon power maxDistance dataPoints 0 0 false

/-! ## Polygon simplification - `simplifyPolygon` (Douglas-Peucker) -/

/-- A real-coordinate point for the simplifier (`Math.sqrt` forces `ℝ`). -/
abbrev RPoint : Type := ℝ × ℝ

open Classical in
/-- `distanceToSegment(point, start, end)` of `simplifyPolygon`. -/
noncomputable def distanceToSegment (point segStart segEnd : RPoint) : ℝ :=
  let px := point.1
  let py := point.2
  let sx := segStart.1
  let sy := segStart.2
  let ex := segEnd.1
  let ey := segEnd.2
  let A := px - sx
  let B := py - sy
  let C := ex - sx
  let D := ey - sy
  let dot := A * C + B * D
  let lenSq := C * C + D * D
  if lenSq = 0 then Real.sqrt (A * A + B * B)
  else
    let param := dot / lenSq
    let xx := if param < 0 then sx else if param > 1 then ex else sx + param * C
    let yy := if param < 0 then sy else if param > 1 then ey else sy + param * D
    let dx := px - xx
    let dy := py - yy
    Real.sqrt (dx * dx + dy * dy)

open Classical in
/-- The `maxDist`/`maxIndex` scan of `douglasPeucker`:
`for (i = 1; i < points.length - 1; i++)` updating on `dist > maxDist`,
starting from `(0, 0)`. -/
noncomputable def dpFarthest (points : List RPoint) : ℝ × ℕ :=
  (List.range' 1 (points.length - 2)).foldl
    (fun acc i =>
      let dist := distanceToSegment (points.getD i (0, 0)) (points.getD 0 (0, 0))
        (points.getD (points.length - 1) (0, 0))
      if dist > acc.1 then (dist, i) else acc)
    (0, 0)

open Classical in
/-- `douglasPeucker(points, tolerance)`: length `≤ 2` returns the points;
otherwise find the farthest interior point; when `maxDist > tolerance`
recurse on `points.slice(0, maxIndex + 1)` and `points.slice(maxIndex)` and
splice as `left.slice(0, -1).concat(right)`; else collapse to the two
endpoints.  The recursion is driven by `fuel`; for `tolerance ≥ 0` a fuel of
`points.length` is never exhausted (each recursive slice is strictly
shorter), and the only inputs that would exhaust it are ones on which the JS
recursion does not terminate (possible only for `tolerance < 0`). -/
noncomputable def douglasPeucker (fuel : ℕ) (points : List RPoint)
    (tolerance : ℝ) : List RPoint :=
  match fuel with
  | 0 => points
  | fuel + 1 =>
    if points.length ≤ 2 then points
    else
      let md := dpFarthest points
      if md.1 > tolerance then
        let left := douglasPeucker fuel (points.take (md.2 + 1)) tolerance
        let right := douglasPeucker fuel (points.drop md.2) tolerance
        left.dropLast ++ right
      else [points.headD (0, 0), points.getLastD (0, 0)]

open Classical in
/-- `simplifyPolygon(polygon, tolerance)`: the guard
`!polygon || !polygon[0] || polygon[0].length < 3` returns the polygon
unchanged; otherwise `[douglasPeucker(polygon[0], tolerance)]`. -/
noncomputable def simplifyPolygon (polygon : List (List RPoint))
    (tolerance : ℝ) : List (List RPoint) :=
  match polygon with
  | [] => []
  | coords :: rest =>
    if coords.length < 3 then coords :: rest
    else [douglasPeucker coords.length coords tolerance]

/-! ## Supporting lemmas: grid generator -/

/-- A concrete all-containing boundary (a closed square ring well around the
North Kazakhstan bounding box), used for concrete grid evaluations. -/
def squareBoundary : Boundary :=
  .feature ⟨some [[(60, 50), (80, 50), (80, 60), (60, 60), (60, 50)]]⟩

theorem foldl_push_filter (p : ℚ → Bool) (f : ℚ → GridPoint) :
    ∀ (xs : List ℚ) (acc : List GridPoint),
      xs.foldl (fun acc x => if p x then acc ++ [f x] else acc) acc
        = acc ++ (xs.filter p).map f
  | [], acc => by simp
  | x :: xs, acc => by
    by_cases h : p x = true
    · simp [List.foldl_cons, List.filter_cons, h, foldl_push_filter p f xs]
    · simp [List.foldl_cons, List.filter_cons, h, foldl_push_filter p f xs]

theorem foldl_push_map (f : ℚ → GridPoint) :
    ∀ (xs : List ℚ) (acc : List GridPoint),
      xs.foldl (fun acc x => acc ++ [f x]) acc = acc ++ xs.map f
  | [], acc => by simp
  | x :: xs, acc => by simp [List.foldl_cons, foldl_push_map f xs]

theorem foldl_append_flatMap (g : ℚ → List GridPoint) :
    ∀ (xs : List ℚ) (acc : List GridPoint),
      xs.foldl (fun acc x => acc ++ g x) acc = acc ++ xs.flatMap g
  | [], acc => by simp
  | x :: xs, acc => by
    simp [List.foldl_cons, foldl_append_flatMap g xs]

/-- The boundary-filtered grid is the row-major flatten of the lattice:
latitude outer, longitude inner, polygon filter, 2-decimal rounding. -/
theorem generatePavlodarGrid_some_eq (step : ℚ) (b : Boundary) :
    generatePavlodarGrid step (some b) =
      (latticeVals 51.8 55.2 step).flatMap (fun lat =>
        ((latticeVals 66.0 72.0 step).filter
            (fun lon => isPointInAnyPolygon (lon, lat) b)).map
          (fun lon => ⟨roundTo2 lat, roundTo2 lon⟩)) := by
  have hinner : ∀ (lat : ℚ) (acc : List GridPoint),
      (latticeVals 66.0 72.0 step).foldl
        (fun grid lon =>
          if isPointInAnyPolygon (lon, lat) b then
            grid ++ [(⟨roundTo2 lat, roundTo2 lon⟩ : GridPoint)]
          else grid) acc
      = acc ++ ((latticeVals 66.0 72.0 step).filter
            (fun lon => isPointInAnyPolygon (lon, lat) b)).map
          (fun lon => ⟨roundTo2 lat, roundTo2 lon⟩) :=
    fun lat acc => foldl_push_filter _ _ _ _
  show (latticeVals 51.8 55.2 step).foldl _ [] = _
  simp only [hinner]
  rw [foldl_append_flatMap]
  simp

/-- The fallback grid is the unfiltered row-major flatten of the lattice. -/
theorem generateFallbackGrid_eq (step : ℚ) :
    generateFallbackGrid step =
      (latticeVals 51.8 55.2 step).flatMap (fun lat =>
        (latticeVals 66.0 72.0 step).map
          (fun lon => ⟨roundTo2 lat, roundTo2 lon⟩)) := by
  have hinner : ∀ (lat : ℚ) (acc : List GridPoint),
      (latticeVals 66.0 72.0 step).foldl
        (fun grid lon => grid ++ [(⟨roundTo2 lat, roundTo2 lon⟩ : GridPoint)]) acc
      = acc ++ (latticeVals 66.0 72.0 step).map
          (fun lon => ⟨roundTo2 lat, roundTo2 lon⟩) :=
    fun lat acc => foldl_push_map _ _ _
  show (latticeVals 51.8 55.2 step).foldl _ [] = _
  simp only [hinner]
  rw [foldl_append_flatMap]
  simp

theorem latticeVals_sorted (lo hi step : ℚ) (h : 0 < step) :
    (latticeVals lo hi step).Sorted (· < ·) := by
  unfold latticeVals
  refine List.Pairwise.map (fun k : ℕ => lo + (k : ℚ) * step) ?_ (List.pairwise_lt_range _)
  intro a b hab
  have hab' : (a : ℚ) < (b : ℚ) := by exact_mod_cast hab
  show lo + (a : ℚ) * step < lo + (b : ℚ) * step
  nlinarith

theorem latticeVals_head (lo hi step : ℚ) (h : 0 < step) (hle : lo ≤ hi) :
    (latticeVals lo hi step).head? = some lo := by
  unfold latticeVals latticeCount
  rw [if_neg (by linarith), if_neg (by linarith), List.range_succ_eq_map]
  simp

theorem latticeVals_ne_nil (lo hi step : ℚ) (h : 0 < step) (hle : lo ≤ hi) :
    latticeVals lo hi step ≠ [] := by
  intro hnil
  have := latticeVals_head lo hi step h hle
  rw [hnil] at this
  simp at this

/-- Concrete lattice for the 3.125-degree step used in the C1 evaluations:
the second latitude value `51.8 + 3.125 = 54.925` carries a nonzero third
decimal. -/
theorem latticeVals_lat3125 : latticeVals 51.8 55.2 3.125 = [51.8, 54.925] := by
  norm_num [latticeVals, latticeCount]
  rw [show List.range 2 = [0, 1] from rfl]
  norm_num

theorem latticeVals_lon3125 : latticeVals 66.0 72.0 3.125 = [66, 69.125] := by
  norm_num [latticeVals, latticeCount]
  rw [show List.range 2 = [0, 1] from rfl]
  norm_num

/-- The grid generated at step `3.125` over `squareBoundary` contains the
point `(54.93, 66)`: the lattice latitude `54.925` rounded to 2 decimals. -/
theorem mem_grid_3125 :
    (⟨54.93, 66⟩ : GridPoint) ∈ generatePavlodarGrid 3.125 (some squareBoundary) := by
  simp only [generatePavlodarGrid, latticeVals_lat3125, latticeVals_lon3125]
  norm_num [isPointInAnyPolygon, isPointInFeature, isPointInPolygon, squareBoundary,
    edgeCrosses, List.zip, List.zipWith, List.foldl, roundTo2, round_eq]

/-! ## Claim C1 -/

/-- C1, counterexample: the claim says every point of
`generatePavlodarGrid` (boundary present) has `lat` and `lon` equal to the
lattice coordinate rounded to 3 decimal places.  It is false: the code
rounds to 2 decimals (`Math.round(x * 100) / 100`).  At step `3.125` over a
square boundary containing the whole bounding box, the grid contains the
point `(54.93, 66)`, whose latitude is not the 3-decimal rounding of any
lattice latitude (those are `51.8` and `54.925`). -/
theorem C1_counterexample :
    ¬ ∀ p ∈ generatePavlodarGrid 3.125 (some squareBoundary),
        p.lat ∈ (latticeVals 51.8 55.2 3.125).map roundTo3 ∧
        p.lon ∈ (latticeVals 66.0 72.0 3.125).map roundTo3 := by
  intro hall
  have h := (hall ⟨54.93, 66⟩ mem_grid_3125).1
  rw [latticeVals_lat3125] at h
  norm_num [roundTo3] at h

/-- C1 (amended): every point returned by `generatePavlodarGrid` with a
boundary present is a lattice point with `lat` and `lon` rounded to 2 (not
3) decimal places; hence both coordinates are integer multiples of `0.01`
(and so in particular of `0.001`). -/
theorem C1_grid_rounding_amended (step : ℚ) (b : Boundary) (p : GridPoint)
    (hp : p ∈ generatePavlodarGrid step (some b)) :
    (∃ la ∈ latticeVals 51.8 55.2 step, ∃ lo ∈ latticeVals 66.0 72.0 step,
        p = ⟨roundTo2 la, roundTo2 lo⟩) ∧
    (∃ m : ℤ, p.lat = (m : ℚ) / 100) ∧ (∃ n : ℤ, p.lon = (n : ℚ) / 100) := by
  rw [generatePavlodarGrid_some_eq] at hp
  simp only [List.mem_flatMap, List.mem_map, List.mem_filter] at hp
  obtain ⟨la, hla, lo, hlo, rfl⟩ := hp
  exact ⟨⟨la, hla, lo, hlo.1, rfl⟩, ⟨round (la * 100), rfl⟩, ⟨round (lo * 100), rfl⟩⟩

/-- C1, witness: the amended statement at the concrete grid point
`(54.93, 66)` of the step-`3.125` grid over `squareBoundary`. -/
theorem C1_grid_rounding_witness :
    (∃ la ∈ latticeVals 51.8 55.2 3.125, ∃ lo ∈ latticeVals 66.0 72.0 3.125,
        (⟨54.93, 66⟩ : GridPoint) = ⟨roundTo2 la, roundTo2 lo⟩) ∧
    (∃ m : ℤ, (⟨54.93, 66⟩ : GridPoint).lat = (m : ℚ) / 100) ∧
    (∃ n : ℤ, (⟨54.93, 66⟩ : GridPoint).lon = (n : ℚ) / 100) :=
  C1_grid_rounding_amended 3.125 squareBoundary ⟨54.93, 66⟩ mem_grid_3125

/-! ## Claim C6 -/

/-- C6: grid generation is deterministic (the embedding is a pure function,
so two runs at equal `(step, boundary)` are definitionally equal) and its
output order is row-major: the grid is exactly the latitude-outer,
longitude-inner flatten of the lattice; with `0 < step` both lattice axes
are strictly ascending and start at the bounding-box minima `51.8` and
`66.0`. -/
theorem C6_row_major_deterministic (step : ℚ) (b : Boundary) (h : 0 < step) :
    generatePavlodarGrid step (some b) =
      (latticeVals 51.8 55.2 step).flatMap (fun lat =>
        ((latticeVals 66.0 72.0 step).filter
            (fun lon => isPointInAnyPolygon (lon, lat) b)).map
          (fun lon => ⟨roundTo2 lat, roundTo2 lon⟩)) ∧
    (latticeVals 51.8 55.2 step).Sorted (· < ·) ∧
    (latticeVals 66.0 72.0 step).Sorted (· < ·) ∧
    (latticeVals 51.8 55.2 step).head? = some 51.8 ∧
    (latticeVals 66.0 72.0 step).head? = some 66.0 :=
  ⟨generatePavlodarGrid_some_eq step b,
   latticeVals_sorted _ _ _ h,
   latticeVals_sorted _ _ _ h,
   latticeVals_head _ _ _ h (by norm_num),
   latticeVals_head _ _ _ h (by norm_num)⟩

/-- C6, witness: the row-major characterization at step `3.125` over the
concrete `squareBoundary`. -/
theorem C6_row_major_witness :
    generatePavlodarGrid 3.125 (some squareBoundary) =
      (latticeVals 51.8 55.2 3.125).flatMap (fun lat =>
        ((latticeVals 66.0 72.0 3.125).filter
            (fun lon => isPointInAnyPolygon (lon, lat) squareBoundary)).map
          (fun lon => ⟨roundTo2 lat, roundTo2 lon⟩)) ∧
    (latticeVals 51.8 55.2 3.125).Sorted (· < ·) ∧
    (latticeVals 66.0 72.0 3.125).Sorted (· < ·) ∧
    (latticeVals 51.8 55.2 3.125).head? = some 51.8 ∧
    (latticeVals 66.0 72.0 3.125).head? = some 66.0 :=
  C6_row_major_deterministic 3.125 squareBoundary (by norm_num)

/-! ## Claim C7 -/

/-- C7: with no boundary, `generatePavlodarGrid` returns the fallback grid:
the full row-major lattice over lat `[51.8, 55.2]` × lon `[66.0, 72.0]` at
the given step, with no polygon filtering, and this grid is non-empty for
every positive step. -/
theorem C7_fallback_grid (step : ℚ) (h : 0 < step) :
    generatePavlodarGrid step none = generateFallbackGrid step ∧
    generatePavlodarGrid step none =
      (latticeVals 51.8 55.2 step).flatMap (fun lat =>
        (latticeVals 66.0 72.0 step).map
          (fun lon => ⟨roundTo2 lat, roundTo2 lon⟩)) ∧
    generatePavlodarGrid step none ≠ [] := by
  refine ⟨rfl, generateFallbackGrid_eq step, ?_⟩
  rw [show generatePavlodarGrid step none = generateFallbackGrid step from rfl,
    generateFallbackGrid_eq step]
  obtain ⟨la, lats, hlats⟩ :=
    List.exists_cons_of_ne_nil (latticeVals_ne_nil 51.8 55.2 step h (by norm_num))
  obtain ⟨lo, lons, hlons⟩ :=
    List.exists_cons_of_ne_nil (latticeVals_ne_nil 66.0 72.0 step h (by norm_num))
  rw [hlats, hlons]
  simp

/-- C7, witness: the fallback behavior at the concrete step `0.2`. -/
theorem C7_fallback_witness :
    generatePavlodarGrid 0.2 none = generateFallbackGrid 0.2 ∧
    generatePavlodarGrid 0.2 none =
      (latticeVals 51.8 55.2 0.2).flatMap (fun lat =>
        (latticeVals 66.0 72.0 0.2).map
          (fun lon => ⟨roundTo2 lat, roundTo2 lon⟩)) ∧
    generatePavlodarGrid 0.2 none ≠ [] :=
  C7_fallback_grid 0.2 (by norm_num)

/-! ## Supporting lemmas: IDW -/

theorem idwLoop_all_far (tLat tLon power maxD : ℝ) :
    ∀ (pts : List Sample) (w v : ℝ),
      (∀ p ∈ pts, Real.sqrt ((tLat - p.lat) ^ 2 + (tLon - p.lon) ^ 2) > maxD) →
      idwLoop tLat tLon power maxD pts w v false = none
  | [], w, v, _ => by simp [idwLoop]
  | p :: rest, w, v, h => by
    simp only [idwLoop]
    rw [if_pos (h p (List.mem_cons_self p rest))]
    exact idwLoop_all_far tLat tLon power maxD rest w v
      (fun q hq => h q (List.mem_cons_of_mem p hq))

theorem idwLoop_exact_match (tLat tLon power maxD : ℝ) :
    ∀ (pts : List Sample) (w v : ℝ) (hn : Bool),
      (∃ p ∈ pts, ¬ Real.sqrt ((tLat - p.lat) ^ 2 + (tLon - p.lon) ^ 2) > maxD ∧
        Real.sqrt ((tLat - p.lat) ^ 2 + (tLon - p.lon) ^ 2) < 0.001) →
      ∃ p ∈ pts, ¬ Real.sqrt ((tLat - p.lat) ^ 2 + (tLon - p.lon) ^ 2) > maxD ∧
        Real.sqrt ((tLat - p.lat) ^ 2 + (tLon - p.lon) ^ 2) < 0.001 ∧
        idwLoop tLat tLon power maxD pts w v hn = some p.value
  | [], w, v, hn, h => absurd h (by simp)
  | q :: rest, w, v, hn, h => by
    by_cases hfar : Real.sqrt ((tLat - q.lat) ^ 2 + (tLon - q.lon) ^ 2) > maxD
    · obtain ⟨p, hp, hpf, hpc⟩ := h
      rcases List.mem_cons.mp hp with hqp | hp2
      · rw [hqp] at hpf
        exact absurd hfar hpf
      · obtain ⟨p2, hmem, h1, h2, h3⟩ :=
          idwLoop_exact_match tLat tLon power maxD rest w v hn ⟨p, hp2, hpf, hpc⟩
        refine ⟨p2, List.mem_cons_of_mem q hmem, h1, h2, ?_⟩
        simp only [idwLoop]
        rw [if_pos hfar]
        exact h3
    · by_cases hclose : Real.sqrt ((tLat - q.lat) ^ 2 + (tLon - q.lon) ^ 2) < 0.001
      · refine ⟨q, List.mem_cons_self q rest, hfar, hclose, ?_⟩
        simp only [idwLoop]
        rw [if_neg hfar, if_pos hclose]
      · obtain ⟨p, hp, hpf, hpc⟩ := h
        rcases List.mem_cons.mp hp with hqp | hp2
        · rw [hqp] at hpc
          exact absurd hpc hclose
        · obtain ⟨p2, hmem, h1, h2, h3⟩ :=
            idwLoop_exact_match tLat tLon power maxD rest
              (w + 1 / Real.rpow (Real.sqrt ((tLat - q.lat) ^ 2 + (tLon - q.lon) ^ 2)) power)
              (v + (1 / Real.rpow (Real.sqrt ((tLat - q.lat) ^ 2 + (tLon - q.lon) ^ 2)) power)
                * q.value)
              true ⟨p, hp2, hpf, hpc⟩
          refine ⟨p2, List.mem_cons_of_mem q hmem, h1, h2, ?_⟩
          simp only [idwLoop]
          rw [if_neg hfar, if_neg hclose]
          exact h3

/-! ## Claim C2 -/

/-- C2, counterexample: the claim quantifies over *every* `maxDistance`, but
a sample closer than `0.001` to the target is still skipped when it is
farther than `maxDistance` (`if (distance > maxDistance) continue` runs
before the exact-match test).  Target `(0, 0)`, one sample at `(0.0005, 0)`
of value `42` (distance `0.0005 < 0.001`), `maxDistance = 0.0002`:
`idwInterpolate` returns `null`, not `42`. -/
theorem C2_counterexample :
    Real.sqrt ((0 - 0.0005 : ℝ) ^ 2 + ((0 : ℝ) - 0) ^ 2) < 0.001 ∧
    idwInterpolate 0 0 [⟨0.0005, 0, 42⟩] 2 0.0002 = none := by
  have hd : Real.sqrt ((0 - 0.0005 : ℝ) ^ 2 + ((0 : ℝ) - 0) ^ 2) = 0.0005 := by
    rw [show ((0 - 0.0005 : ℝ) ^ 2 + ((0 : ℝ) - 0) ^ 2) = 0.0005 ^ 2 by norm_num,
      Real.sqrt_sq (by norm_num)]
  refine ⟨by rw [hd]; norm_num, ?_⟩
  show idwLoop 0 0 2 0.0002 [⟨0.0005, 0, 42⟩] 0 0 false = none
  simp only [idwLoop]
  rw [if_pos (by rw [hd]; norm_num)]
  simp

/-- C2 (amended): if some sample lies both within `maxDistance` of the
target and within the `0.001` exact-match epsilon, `idwInterpolate` returns
exactly that sample's value (the first such sample in list order),
regardless of the other samples present.  The claim's original "for every
maxDistance" fails: the coinciding sample must also be within
`maxDistance`. -/
theorem C2_exact_match_amended (tLat tLon power maxD : ℝ) (pts : List Sample)
    (h : ∃ p ∈ pts, ¬ Real.sqrt ((tLat - p.lat) ^ 2 + (tLon - p.lon) ^ 2) > maxD ∧
      Real.sqrt ((tLat - p.lat) ^ 2 + (tLon - p.lon) ^ 2) < 0.001) :
    ∃ p ∈ pts, ¬ Real.sqrt ((tLat - p.lat) ^ 2 + (tLon - p.lon) ^ 2) > maxD ∧
      Real.sqrt ((tLat - p.lat) ^ 2 + (tLon - p.lon) ^ 2) < 0.001 ∧
      idwInterpolate tLat tLon pts power maxD = some p.value :=
  idwLoop_exact_match tLat tLon power maxD pts 0 0 false h

/-- C2, witness: one sample exactly at the target (distance `0`), within
`maxDistance = 2`: the interpolation returns its value `42`. -/
theorem C2_exact_match_witness :
    idwInterpolate 0 0 [⟨0, 0, 42⟩] 2 2 = some 42 := by
  have hd : Real.sqrt (((0 : ℝ) - 0) ^ 2 + ((0 : ℝ) - 0) ^ 2) = 0 := by
    rw [show (((0 : ℝ) - 0) ^ 2 + ((0 : ℝ) - 0) ^ 2) = 0 by norm_num, Real.sqrt_zero]
  obtain ⟨p, hp, _, _, hres⟩ :=
    C2_exact_match_amended 0 0 2 2 [⟨0, 0, 42⟩]
      ⟨⟨0, 0, 42⟩, List.mem_singleton.mpr rfl, by rw [hd]; norm_num, by rw [hd]; norm_num⟩
  rw [List.mem_singleton] at hp
  rw [hp] at hres
  exact hres

/-! ## Claim C3 -/

/-- C3: when every sample's Euclidean distance (in degrees) to the target
exceeds `maxDistance`, `idwInterpolate` returns `null` — the defined no-data
outcome.  (The embedding is a total function: no execution path throws.) -/
theorem C3_all_far_returns_null (tLat tLon power maxD : ℝ) (pts : List Sample)
    (h : ∀ p ∈ pts, Real.sqrt ((tLat - p.lat) ^ 2 + (tLon - p.lon) ^ 2) > maxD) :
    idwInterpolate tLat tLon pts power maxD = none :=
  idwLoop_all_far tLat tLon power maxD pts 0 0 h

/-- C3, witness: one sample at distance `5` from the origin target with
`maxDistance = 1` yields `null`. -/
theorem C3_all_far_witness : idwInterpolate 0 0 [⟨3, 4, 7⟩] 2 1 = none := by
  refine C3_all_far_returns_null 0 0 2 1 [⟨3, 4, 7⟩] ?_
  intro p hp
  rw [List.mem_singleton] at hp
  rw [hp]
  show Real.sqrt (((0 : ℝ) - 3) ^ 2 + ((0 : ℝ) - 4) ^ 2) > 1
  rw [show (((0 : ℝ) - 3) ^ 2 + ((0 : ℝ) - 4) ^ 2) = 5 ^ 2 by norm_num,
    Real.sqrt_sq (by norm_num)]
  norm_num

/-! ## Claim C4 -/

/-- C4: two samples of values `0` and `100` equidistant from the target (as
at the midpoint of two samples a distance `d` apart), both within range and
outside the exact-match epsilon, interpolate with `power = 2` to exactly
`50`. -/
theorem C4_midpoint_fifty (tLat tLon maxD r : ℝ) (s1 s2 : Sample)
    (hd1 : Real.sqrt ((tLat - s1.lat) ^ 2 + (tLon - s1.lon) ^ 2) = r)
    (hd2 : Real.sqrt ((tLat - s2.lat) ^ 2 + (tLon - s2.lon) ^ 2) = r)
    (hv1 : s1.value = 0) (hv2 : s2.value = 100)
    (hfar : ¬ r > maxD) (hclose : ¬ r < 0.001) :
    idwInterpolate tLat tLon [s1, s2] 2 maxD = some 50 := by
  have hr : (0 : ℝ) < r := lt_of_lt_of_le (by norm_num) (not_lt.mp hclose)
  have hrp : Real.rpow r 2 = r ^ 2 := Real.rpow_two r
  have hw : (0 : ℝ) < 1 / r ^ 2 := by positivity
  show idwLoop tLat tLon 2 maxD [s1, s2] 0 0 false = some 50
  simp only [idwLoop]
  rw [hd1, hd2, if_neg hfar, if_neg hclose, if_neg hfar, if_neg hclose, hrp,
    if_neg (by
      push_neg
      constructor
      · simp
      · positivity)]
  rw [hv1, hv2]
  congr 1
  field_simp
  ring

/-- C4, witness: the spec's end-to-end scenario — samples `(0,0,value 0)`
and `(10,0,value 100)`, target `(5,0)`, `power = 2`, `maxDistance = 20` —
interpolates to exactly `50`. -/
theorem C4_midpoint_witness :
    idwInterpolate 5 0 [⟨0, 0, 0⟩, ⟨10, 0, 100⟩] 2 20 = some 50 := by
  refine C4_midpoint_fifty 5 0 20 5 ⟨0, 0, 0⟩ ⟨10, 0, 100⟩ ?_ ?_ rfl rfl
    (by norm_num) (by norm_num)
  · rw [show (((5 : ℝ) - 0) ^ 2 + ((0 : ℝ) - 0) ^ 2) = 5 ^ 2 by norm_num,
      Real.sqrt_sq (by norm_num)]
  · rw [show (((5 : ℝ) - 10) ^ 2 + ((0 : ℝ) - 0) ^ 2) = 5 ^ 2 by norm_num,
      Real.sqrt_sq (by norm_num)]

/-! ## Claim C5 -/

/-- C5: the geometry functions fail soft on degenerate input and never
throw (both embeddings are total functions): `isPointInPolygon` returns
`false` whenever the outer ring has fewer than 3 points — which covers an
absent or empty polygon, since the absent first ring reads as the empty
ring — and `getBoundingBox` returns the fixed default box
`{minLat 51.8, maxLat 55.2, minLon 66.0, maxLon 72.0}` whenever the outer
ring is empty or absent. -/
theorem C5_degenerate_fail_soft (point : Point) (polygon : Polygon) :
    ((polygon.headD []).length < 3 → isPointInPolygon point polygon = false) ∧
    (polygon.headD [] = [] → getBoundingBox polygon = ⟨51.8, 55.2, 66.0, 72.0⟩) := by
  constructor
  · intro h
    match polygon with
    | [] => rfl
    | coords :: rest =>
      have h2 : coords.length < 3 := by simpa using h
      show (if coords.length < 3 then false else _) = false
      rw [if_pos h2]
  · intro h
    match polygon with
    | [] => rfl
    | [] :: rest => rfl
    | (p :: ps) :: rest => simp at h

/-- C5, witness: a one-point ring is rejected and an absent ring yields the
default box. -/
theorem C5_degenerate_witness :
    isPointInPolygon (0, 0) [[(1, 2)]] = false ∧
    getBoundingBox [] = ⟨51.8, 55.2, 66.0, 72.0⟩ :=
  ⟨(C5_degenerate_fail_soft (0, 0) [[(1, 2)]]).1 (by simp),
   (C5_degenerate_fail_soft (0, 0) []).2 (by simp)⟩

/-! ## Supporting lemmas: cache -/

theorem mapGet_mapSet_self {α : Type} (k : String) (item : CacheItem α) :
    ∀ (m : CacheMap α), mapGet (mapSet m k item) k = some item
  | [] => by simp [mapGet, mapSet]
  | e :: rest => by
    by_cases h : e.1 = k
    · simp [mapGet, mapSet, h]
    · simp only [mapSet, if_neg h, mapGet, List.find?,
        show (e.1 == k) = false from by simpa using h]
      exact mapGet_mapSet_self k item rest

theorem mem_mapSet {α : Type} (k : String) (item : CacheItem α) :
    ∀ (m : CacheMap α) (x : String × CacheItem α),
      x ∈ mapSet m k item → x.1 = k ∨ x ∈ m
  | [], x, hx => by
    simp only [mapSet, List.mem_singleton] at hx
    rw [hx]
    exact Or.inl rfl
  | e :: rest, x, hx => by
    by_cases h : e.1 = k
    · simp only [mapSet, if_pos h, List.mem_cons] at hx
      rcases hx with hx | hx
      · rw [hx]
        exact Or.inl rfl
      · exact Or.inr (List.mem_cons_of_mem e hx)
    · simp only [mapSet, if_neg h, List.mem_cons] at hx
      rcases hx with hx | hx
      · exact Or.inr (hx ▸ List.mem_cons_self e rest)
      · rcases mem_mapSet k item rest x hx with h1 | h1
        · exact Or.inl h1
        · exact Or.inr (List.mem_cons_of_mem e h1)

theorem mapGet_mapDelete_self {α : Type} (k : String) :
    ∀ (m : CacheMap α), (m.map Prod.fst).Nodup →
      mapGet (mapDelete m k) k = none
  | [], _ => by simp [mapGet, mapDelete]
  | e :: rest, hnd => by
    rw [List.map_cons, List.nodup_cons] at hnd
    by_cases h : e.1 = k
    · have hk : ∀ e2 ∈ rest, e2.1 ≠ k := by
        intro e2 he2 hk2
        exact hnd.1 (h ▸ hk2 ▸ List.mem_map_of_mem Prod.fst he2)
      simp only [mapDelete, List.eraseP_cons,
        show (e.1 == k) = true from by simpa using h, cond_true]
      simp only [mapGet]
      rw [List.find?_eq_none.mpr (fun e2 he2 => by simpa using hk e2 he2)]
      rfl
    · simp only [mapDelete, List.eraseP_cons,
        show (e.1 == k) = false from by simpa using h, cond_false]
      have ih := mapGet_mapDelete_self k rest hnd.2
      simp only [mapGet, List.find?, mapDelete,
        show (e.1 == k) = false from by simpa using h] at ih ⊢
      exact ih

theorem nodup_keys_mapSet {α : Type} (k : String) (item : CacheItem α) :
    ∀ (m : CacheMap α), (m.map Prod.fst).Nodup →
      ((mapSet m k item).map Prod.fst).Nodup
  | [], _ => by simp [mapSet]
  | e :: rest, hnd => by
    rw [List.map_cons, List.nodup_cons] at hnd
    by_cases h : e.1 = k
    · simp only [mapSet, if_pos h]
      rw [List.map_cons, List.nodup_cons]
      exact ⟨h ▸ hnd.1, hnd.2⟩
    · simp only [mapSet, if_neg h]
      rw [List.map_cons, List.nodup_cons]
      refine ⟨?_, nodup_keys_mapSet k item rest hnd.2⟩
      intro hmem
      obtain ⟨x, hx, hx1⟩ := List.mem_map.mp hmem
      rcases mem_mapSet k item rest x hx with h1 | h1
      · exact h (hx1 ▸ h1.symm ▸ rfl)
      · exact hnd.1 (hx1 ▸ List.mem_map_of_mem Prod.fst h1)

/-! ## Claim C9 -/

/-- C9: after `set(k, v)` with no explicit TTL at time `now`, the entry's
`expiresAt` is `now + 3600000` (1 hour); a `get(k)` at any time `t` not past
that expiry returns `v` and leaves the store unchanged; a `get(k)` at `t`
past the expiry returns `null` and removes the entry (lazy eviction).  The
`Nodup` hypothesis is the key-uniqueness invariant every JS `Map` maintains. -/
theorem C9_cache_expiry (α : Type) (m : CacheMap α) (now : ℤ) (k : String)
    (v : α) (t : ℤ) (hnd : (m.map Prod.fst).Nodup) :
    (mapGet (cacheSet m now k v none) k).map CacheItem.expiresAt
        = some (now + 3600000) ∧
    (¬ t > now + 3600000 →
      cacheGet (cacheSet m now k v none) t k = (some v, cacheSet m now k v none)) ∧
    (t > now + 3600000 →
      (cacheGet (cacheSet m now k v none) t k).1 = none ∧
      mapGet (cacheGet (cacheSet m now k v none) t k).2 k = none) := by
  have hget : mapGet (cacheSet m now k v none) k
      = some ⟨v, now, now + 3600000⟩ := by
    have h := mapGet_mapSet_self k (⟨v, now, now + 3600000⟩ : CacheItem α) m
    simpa [cacheSet, defaultTTL] using h
  refine ⟨by rw [hget]; rfl, ?_, ?_⟩
  · intro ht
    simp only [cacheGet, hget]
    rw [if_neg (by simpa using ht)]
  · intro ht
    simp only [cacheGet, hget]
    rw [if_pos (by simpa using ht)]
    refine ⟨rfl, ?_⟩
    show mapGet (mapDelete (cacheSet m now k v none) k) k = none
    exact mapGet_mapDelete_self k _ (nodup_keys_mapSet k _ m hnd)

/-- C9, witness: on the empty cache, `set "k" true` at time `0` expires at
`3600000`; `get` at `3600000` still returns the value, `get` at `3600001`
returns `null` and evicts. -/
theorem C9_cache_witness :
    (mapGet (cacheSet ([] : CacheMap Bool) 0 "k" true none) "k").map
        CacheItem.expiresAt = some 3600000 ∧
    (cacheGet (cacheSet ([] : CacheMap Bool) 0 "k" true none) 3600000 "k").1
        = some true ∧
    (cacheGet (cacheSet ([] : CacheMap Bool) 0 "k" true none) 3600001 "k").1
        = none ∧
    mapGet (cacheGet (cacheSet ([] : CacheMap Bool) 0 "k" true none) 3600001 "k").2
        "k" = none := by
  have h1 := C9_cache_expiry Bool [] 0 "k" true 3600000 (by simp)
  have h2 := C9_cache_expiry Bool [] 0 "k" true 3600001 (by simp)
  have h1b := h1.2.1 (by norm_num)
  have h2b := h2.2.2 (by norm_num)
  exact ⟨by simpa using h1.1, by rw [h1b], h2b.1, h2b.2⟩

/-! ## Supporting lemmas: color scales -/

theorem findStops_cases (v : ℚ) (dflt : ColorStop × ColorStop) :
    ∀ (stops : List ColorStop),
      findStops v dflt stops = dflt ∨
      ((findStops v dflt stops).1 ∈ stops ∧ (findStops v dflt stops).2 ∈ stops ∧
        (findStops v dflt stops).1.value ≤ v ∧ v ≤ (findStops v dflt stops).2.value)
  | [] => Or.inl rfl
  | [_] => Or.inl rfl
  | s1 :: s2 :: rest => by
    by_cases h : v ≥ s1.value ∧ v ≤ s2.value
    · right
      simp only [findStops, if_pos h]
      exact ⟨List.mem_cons_self s1 (s2 :: rest),
        List.mem_cons_of_mem s1 (List.mem_cons_self s2 rest), h.1, h.2⟩
    · rw [show findStops v dflt (s1 :: s2 :: rest) = findStops v dflt (s2 :: rest)
        from by simp only [findStops, if_neg h]]
      rcases findStops_cases v dflt (s2 :: rest) with h1 | h1
      · exact Or.inl h1
      · exact Or.inr ⟨List.mem_cons_of_mem s1 h1.1,
          List.mem_cons_of_mem s1 h1.2.1, h1.2.2⟩

theorem interpChannel_bounds (l u : ℤ) (f : ℚ)
    (hl0 : 0 ≤ l) (hl1 : l ≤ 255) (hu0 : 0 ≤ u) (hu1 : u ≤ 255)
    (hf0 : 0 ≤ f) (hf1 : f ≤ 1) :
    0 ≤ interpChannel l u f ∧ interpChannel l u f ≤ 255 := by
  unfold interpChannel
  have hl0q : (0 : ℚ) ≤ (l : ℚ) := by exact_mod_cast hl0
  have hl1q : (l : ℚ) ≤ 255 := by exact_mod_cast hl1
  have hu0q : (0 : ℚ) ≤ (u : ℚ) := by exact_mod_cast hu0
  have hu1q : (u : ℚ) ≤ 255 := by exact_mod_cast hu1
  have hx0 : (0 : ℚ) ≤ (l : ℚ) + f * ((u : ℚ) - (l : ℚ)) := by nlinarith
  have hx1 : (l : ℚ) + f * ((u : ℚ) - (l : ℚ)) ≤ 255 := by nlinarith
  constructor
  · rw [round_eq]
    refine Int.le_floor.mpr ?_
    push_cast
    linarith
  · rw [round_eq]
    have h2 : ⌊(l : ℚ) + f * ((u : ℚ) - (l : ℚ)) + 1 / 2⌋ < 256 :=
      Int.floor_lt.mpr (by push_cast; linarith)
    omega

theorem stopInterpolate_bounds (stops : List ColorStop) (v : ℚ)
    (hch : ∀ s ∈ stops, 0 ≤ s.r ∧ s.r ≤ 255 ∧ 0 ≤ s.g ∧ s.g ≤ 255 ∧
      0 ≤ s.b ∧ s.b ≤ 255)
    (hmemh : stops.headD ⟨0, 0, 0, 0⟩ ∈ stops)
    (hmeml : stops.getLastD ⟨0, 0, 0, 0⟩ ∈ stops)
    (hhead : (stops.headD ⟨0, 0, 0, 0⟩).value ≤ v)
    (hlast : v ≤ (stops.getLastD ⟨0, 0, 0, 0⟩).value) :
    0 ≤ (stopInterpolate stops v).r ∧ (stopInterpolate stops v).r ≤ 255 ∧
    0 ≤ (stopInterpolate stops v).g ∧ (stopInterpolate stops v).g ≤ 255 ∧
    0 ≤ (stopInterpolate stops v).b ∧ (stopInterpolate stops v).b ≤ 255 := by
  have hmain : (findStops v (stops.headD ⟨0, 0, 0, 0⟩, stops.getLastD ⟨0, 0, 0, 0⟩)
        stops).1 ∈ stops ∧
      (findStops v (stops.headD ⟨0, 0, 0, 0⟩, stops.getLastD ⟨0, 0, 0, 0⟩)
        stops).2 ∈ stops ∧
      (findStops v (stops.headD ⟨0, 0, 0, 0⟩, stops.getLastD ⟨0, 0, 0, 0⟩)
        stops).1.value ≤ v ∧
      v ≤ (findStops v (stops.headD ⟨0, 0, 0, 0⟩, stops.getLastD ⟨0, 0, 0, 0⟩)
        stops).2.value := by
    rcases findStops_cases v (stops.headD ⟨0, 0, 0, 0⟩, stops.getLastD ⟨0, 0, 0, 0⟩)
        stops with h1 | h1
    · rw [h1]
      exact ⟨hmemh, hmeml, hhead, hlast⟩
    · exact h1
  set lu := findStops v (stops.headD ⟨0, 0, 0, 0⟩, stops.getLastD ⟨0, 0, 0, 0⟩)
    stops with hlu
  have hfac : 0 ≤ (if lu.2.value - lu.1.value = 0 then 0
        else (v - lu.1.value) / (lu.2.value - lu.1.value)) ∧
      (if lu.2.value - lu.1.value = 0 then 0
        else (v - lu.1.value) / (lu.2.value - lu.1.value)) ≤ 1 := by
    by_cases hr : lu.2.value - lu.1.value = 0
    · rw [if_pos hr]
      norm_num
    · rw [if_neg hr]
      have hrpos : 0 < lu.2.value - lu.1.value := by
        rcases lt_or_eq_of_le (by linarith [hmain.2.2.1, hmain.2.2.2] :
          (0 : ℚ) ≤ lu.2.value - lu.1.value) with h | h
        · exact h
        · exact absurd h.symm hr
      constructor
      · exact div_nonneg (by linarith [hmain.2.2.1]) (le_of_lt hrpos)
      · rw [div_le_one hrpos]
        linarith [hmain.2.2.2]
  have hc1 := hch _ hmain.1
  have hc2 := hch _ hmain.2.1
  show 0 ≤ (⟨interpChannel lu.1.r lu.2.r _, interpChannel lu.1.g lu.2.g _,
      interpChannel lu.1.b lu.2.b _⟩ : RGB).r ∧ _
  have hbr := interpChannel_bounds lu.1.r lu.2.r _ hc1.1 hc1.2.1 hc2.1 hc2.2.1
    hfac.1 hfac.2
  have hbg := interpChannel_bounds lu.1.g lu.2.g _ hc1.2.2.1 hc1.2.2.2.1
    hc2.2.2.1 hc2.2.2.2.1 hfac.1 hfac.2
  have hbb := interpChannel_bounds lu.1.b lu.2.b _ hc1.2.2.2.2.1 hc1.2.2.2.2.2
    hc2.2.2.2.2.1 hc2.2.2.2.2.2 hfac.1 hfac.2
  exact ⟨hbr.1, hbr.2, hbg.1, hbg.2, hbb.1, hbb.2⟩

/-! ## Claim C10 -/

/-- C10: for every (rational — every IEEE double is one) input value, both
color functions return channels that are integers (the embedding's channel
type is `ℤ`, the image of `Math.round`) within `[0, 255]`: the input is
clamped to the table's domain and each channel is a rounded convex
combination of two table channels, themselves within `[0, 255]`. -/
theorem C10_color_channels_bounded (value : ℚ) :
    (0 ≤ (getMoistureColor value).r ∧ (getMoistureColor value).r ≤ 255 ∧
     0 ≤ (getMoistureColor value).g ∧ (getMoistureColor value).g ≤ 255 ∧
     0 ≤ (getMoistureColor value).b ∧ (getMoistureColor value).b ≤ 255) ∧
    (0 ≤ (getTemperatureColor value).r ∧ (getTemperatureColor value).r ≤ 255 ∧
     0 ≤ (getTemperatureColor value).g ∧ (getTemperatureColor value).g ≤ 255 ∧
     0 ≤ (getTemperatureColor value).b ∧ (getTemperatureColor value).b ≤ 255) := by
  constructor
  · refine stopInterpolate_bounds moistureStops (max 0 (min 100 value)) ?_ ?_ ?_ ?_ ?_
    · intro s hs
      fin_cases hs <;> norm_num
    · simp [moistureStops]
    · simp [moistureStops]
    · show (0 : ℚ) ≤ max 0 (min 100 value)
      exact le_max_left 0 _
    · show max 0 (min 100 value) ≤ (100 : ℚ)
      exact max_le (by norm_num) (min_le_left 100 value)
  · refine stopInterpolate_bounds temperatureStops (max (-10) (min 40 value)) ?_ ?_ ?_ ?_ ?_
    · intro s hs
      fin_cases hs <;> norm_num
    · simp [temperatureStops]
    · simp [temperatureStops]
    · show (-10 : ℚ) ≤ max (-10) (min 40 value)
      exact le_max_left (-10) _
    · show max (-10) (min 40 value) ≤ (40 : ℚ)
      exact max_le (by norm_num) (min_le_left 40 value)

/-! ## Supporting lemmas: Douglas-Peucker -/

/-- Three points are collinear: the cross product of `b - a` with `c - a`
vanishes. -/
def Collinear3 (a b c : RPoint) : Prop :=
  (b.1 - a.1) * (c.2 - a.2) - (b.2 - a.2) * (c.1 - a.1) = 0

theorem distanceToSegment_pos (p s e : RPoint) (hse : s ≠ e) (hps : p ≠ s)
    (hpe : p ≠ e) (hcol : ¬ Collinear3 s p e) : 0 < distanceToSegment p s e := by
  have hs2 : ∀ a b : RPoint, a ≠ b →
      0 < (a.1 - b.1) * (a.1 - b.1) + (a.2 - b.2) * (a.2 - b.2) := by
    intro a b hab
    rcases lt_or_le 0 ((a.1 - b.1) * (a.1 - b.1) + (a.2 - b.2) * (a.2 - b.2)) with h | h
    · exact h
    · exfalso
      apply hab
      have h1 : a.1 - b.1 = 0 := by nlinarith [sq_nonneg (a.1 - b.1), sq_nonneg (a.2 - b.2)]
      have h2 : a.2 - b.2 = 0 := by nlinarith [sq_nonneg (a.1 - b.1), sq_nonneg (a.2 - b.2)]
      exact Prod.ext (by linarith) (by linarith)
  unfold distanceToSegment
  have hlen : ¬ (e.1 - s.1) * (e.1 - s.1) + (e.2 - s.2) * (e.2 - s.2) = 0 := by
    intro h0
    exact absurd h0 (ne_of_gt (hs2 e s (fun h => hse h.symm)))
  rw [if_neg hlen]
  dsimp only
  set param := ((p.1 - s.1) * (e.1 - s.1) + (p.2 - s.2) * (e.2 - s.2)) /
    ((e.1 - s.1) * (e.1 - s.1) + (e.2 - s.2) * (e.2 - s.2)) with hparam
  by_cases h1 : param < 0
  · rw [if_pos h1, if_pos h1]
    exact Real.sqrt_pos.mpr (hs2 p s hps)
  · rw [if_neg h1, if_neg h1]
    by_cases h2 : param > 1
    · rw [if_pos h2, if_pos h2]
      exact Real.sqrt_pos.mpr (hs2 p e hpe)
    · rw [if_neg h2, if_neg h2]
      refine Real.sqrt_pos.mpr ?_
      rcases lt_or_le 0 ((p.1 - (s.1 + param * (e.1 - s.1))) *
          (p.1 - (s.1 + param * (e.1 - s.1))) +
          (p.2 - (s.2 + param * (e.2 - s.2))) * (p.2 - (s.2 + param * (e.2 - s.2))))
        with h | h
      · exact h
      · exfalso
        apply hcol
        have hx : p.1 - (s.1 + param * (e.1 - s.1)) = 0 := by
          nlinarith [sq_nonneg (p.1 - (s.1 + param * (e.1 - s.1))),
            sq_nonneg (p.2 - (s.2 + param * (e.2 - s.2)))]
        have hy : p.2 - (s.2 + param * (e.2 - s.2)) = 0 := by
          nlinarith [sq_nonneg (p.1 - (s.1 + param * (e.1 - s.1))),
            sq_nonneg (p.2 - (s.2 + param * (e.2 - s.2)))]
        show (p.1 - s.1) * (e.2 - s.2) - (p.2 - s.2) * (e.1 - s.1) = 0
        have hx2 : p.1 - s.1 = param * (e.1 - s.1) := by linarith
        have hy2 : p.2 - s.2 = param * (e.2 - s.2) := by linarith
        rw [hx2, hy2]
        ring

theorem dpfold_cases (d : ℕ → ℝ) :
    ∀ (L : List ℕ) (acc : ℝ × ℕ),
      L.foldl (fun acc i => if d i > acc.1 then (d i, i) else acc) acc = acc ∨
      ∃ i ∈ L, L.foldl (fun acc i => if d i > acc.1 then (d i, i) else acc) acc
        = (d i, i)
  | [], acc => Or.inl rfl
  | i :: L, acc => by
    simp only [List.foldl_cons]
    by_cases h : d i > acc.1
    · rw [if_pos h]
      rcases dpfold_cases d L (d i, i) with h1 | h1
      · exact Or.inr ⟨i, List.mem_cons_self i L, h1⟩
      · obtain ⟨j, hj, hj2⟩ := h1
        exact Or.inr ⟨j, List.mem_cons_of_mem i hj, hj2⟩
    · rw [if_neg h]
      rcases dpfold_cases d L acc with h1 | h1
      · exact Or.inl h1
      · obtain ⟨j, hj, hj2⟩ := h1
        exact Or.inr ⟨j, List.mem_cons_of_mem i hj, hj2⟩

theorem dpfold_pos (d : ℕ → ℝ) :
    ∀ (L : List ℕ) (acc : ℝ × ℕ), (∀ i ∈ L, 0 < d i) → (0 < acc.1 ∨ L ≠ []) →
      0 < (L.foldl (fun acc i => if d i > acc.1 then (d i, i) else acc) acc).1
  | [], acc, _, hne => by
    rcases hne with h | h
    · exact h
    · exact absurd rfl h
  | i :: L, acc, hd, _ => by
    simp only [List.foldl_cons]
    have hacc : 0 < (if d i > acc.1 then (d i, i) else acc).1 := by
      by_cases h : d i > acc.1
      · rw [if_pos h]
        exact hd i (List.mem_cons_self i L)
      · rw [if_neg h]
        have := hd i (List.mem_cons_self i L)
        push_neg at h
        exact lt_of_lt_of_le this h
    exact dpfold_pos d L _ (fun j hj => hd j (List.mem_cons_of_mem i hj))
      (Or.inl hacc)

theorem dropLast_take_eq {α : Type} (l : List α) (n : ℕ) (h : n + 1 ≤ l.length) :
    (l.take (n + 1)).dropLast = l.take n := by
  rw [List.dropLast_eq_take, List.take_take]
  simp only [List.length_take]
  congr 1
  omega

theorem getD_take {α : Type} (l : List α) (n i : ℕ) (d : α) (h : i < n) :
    (l.take n).getD i d = l.getD i d := by
  rw [List.getD_eq_getElem?_getD, List.getD_eq_getElem?_getD, List.getElem?_take,
    if_pos h]

theorem getD_drop {α : Type} (l : List α) (m i : ℕ) (d : α) :
    (l.drop m).getD i d = l.getD (m + i) d := by
  rw [List.getD_eq_getElem?_getD, List.getD_eq_getElem?_getD, List.getElem?_drop]

/-- The heart of the C8 amendment: on a list of at least 3 pairwise-distinct
points no three of which are collinear, `douglasPeucker` at tolerance `0`
(with enough fuel, `points.length` suffices) returns the list unchanged:
every interior point is at strictly positive distance from every recursion
chord, so the recursion splits all the way down to adjacent pairs. -/
theorem douglasPeucker_id :
    ∀ (fuel : ℕ) (points : List RPoint), points.length ≤ fuel →
      (∀ i j, i < j → j < points.length →
        points.getD i (0, 0) ≠ points.getD j (0, 0)) →
      (∀ i j k2, i < j → j < k2 → k2 < points.length →
        ¬ Collinear3 (points.getD i (0, 0)) (points.getD j (0, 0))
          (points.getD k2 (0, 0))) →
      douglasPeucker fuel points 0 = points
  | 0, points, hle, _, _ => rfl
  | fuel + 1, points, hle, hdist, hcol => by
    show (if points.length ≤ 2 then points else _) = points
    by_cases h2 : points.length ≤ 2
    · rw [if_pos h2]
    · rw [if_neg h2]
      dsimp only
      have hlen3 : 3 ≤ points.length := by omega
      have hdp : dpFarthest points =
          (List.range' 1 (points.length - 2)).foldl
            (fun acc i =>
              if distanceToSegment (points.getD i (0, 0)) (points.getD 0 (0, 0))
                  (points.getD (points.length - 1) (0, 0)) > acc.1
              then (distanceToSegment (points.getD i (0, 0))
                  (points.getD 0 (0, 0)) (points.getD (points.length - 1) (0, 0)), i)
              else acc)
            (0, 0) := rfl
      have hdpos : ∀ i ∈ List.range' 1 (points.length - 2),
          0 < distanceToSegment (points.getD i (0, 0)) (points.getD 0 (0, 0))
            (points.getD (points.length - 1) (0, 0)) := by
        intro i hi
        obtain ⟨hi1, hi2⟩ := List.mem_range'_1.mp hi
        refine distanceToSegment_pos _ _ _
          (hdist 0 (points.length - 1) (by omega) (by omega))
          (fun h => hdist 0 i (by omega) (by omega) h.symm)
          (hdist i (points.length - 1) (by omega) (by omega)) ?_
        exact hcol 0 i (points.length - 1) (by omega) (by omega) (by omega)
      have hpos : 0 < (dpFarthest points).1 := by
        rw [hdp]
        exact dpfold_pos _ _ _ hdpos (Or.inr (by simp [List.range'_eq_nil]; omega))
      rcases dpfold_cases
          (fun i => distanceToSegment (points.getD i (0, 0)) (points.getD 0 (0, 0))
            (points.getD (points.length - 1) (0, 0)))
          (List.range' 1 (points.length - 2)) (0, 0) with hc | hc
      · exfalso
        rw [hdp, hc] at hpos
        exact lt_irrefl 0 hpos
      · obtain ⟨i, hiL, hieq⟩ := hc
        obtain ⟨hi1, hi2⟩ := List.mem_range'_1.mp hiL
        have hsnd : (dpFarthest points).2 = i := by rw [hdp, hieq]
        rw [if_pos hpos, hsnd]
        have htake : (points.take (i + 1)).length = i + 1 := by
          rw [List.length_take]
          omega
        have hdropl : (points.drop i).length = points.length - i :=
          List.length_drop i points
        have hleft := douglasPeucker_id fuel (points.take (i + 1))
          (by omega)
          (fun a b hab hb => by
            rw [htake] at hb
            rw [getD_take points (i + 1) a (0, 0) (by omega),
              getD_take points (i + 1) b (0, 0) (by omega)]
            exact hdist a b hab (by omega))
          (fun a b c hab hbc hc3 => by
            rw [htake] at hc3
            rw [getD_take points (i + 1) a (0, 0) (by omega),
              getD_take points (i + 1) b (0, 0) (by omega),
              getD_take points (i + 1) c (0, 0) (by omega)]
            exact hcol a b c hab hbc (by omega))
        have hright := douglasPeucker_id fuel (points.drop i)
          (by omega)
          (fun a b hab hb => by
            rw [hdropl] at hb
            rw [getD_drop points i a (0, 0), getD_drop points i b (0, 0)]
            exact hdist (i + a) (i + b) (by omega) (by omega))
          (fun a b c hab hbc hc3 => by
            rw [hdropl] at hc3
            rw [getD_drop points i a (0, 0), getD_drop points i b (0, 0),
              getD_drop points i c (0, 0)]
            exact hcol (i + a) (i + b) (i + c) (by omega) (by omega) (by omega))
        rw [hleft, hright, dropLast_take_eq points i (by omega),
          List.take_append_drop]

/-! ## Claim C8 -/

/-- C8, counterexample: `simplifyPolygon(ring, 0)` does not return every
ring unchanged: a point whose perpendicular deviation from the chord is
exactly zero is dropped (`maxDist > tolerance` is strict).  The collinear
ring `[(1,5), (2,5), (3,5)]` collapses to its two endpoints. -/
theorem C8_counterexample :
    simplifyPolygon [[((1 : ℝ), (5 : ℝ)), (2, 5), (3, 5)]] 0
        = [[((1 : ℝ), (5 : ℝ)), (3, 5)]] ∧
    simplifyPolygon [[((1 : ℝ), (5 : ℝ)), (2, 5), (3, 5)]] 0
        ≠ [[((1 : ℝ), (5 : ℝ)), (2, 5), (3, 5)]] := by
  have hfar : dpFarthest [((1 : ℝ), (5 : ℝ)), (2, 5), (3, 5)] = (0, 0) := by
    norm_num [dpFarthest, List.range', distanceToSegment]
  have hdp : douglasPeucker 3 [((1 : ℝ), (5 : ℝ)), (2, 5), (3, 5)] 0
      = [((1 : ℝ), (5 : ℝ)), (3, 5)] := by
    rw [douglasPeucker]
    norm_num [hfar]
  have heval : simplifyPolygon [[((1 : ℝ), (5 : ℝ)), (2, 5), (3, 5)]] 0
      = [[((1 : ℝ), (5 : ℝ)), (3, 5)]] := by
    norm_num [simplifyPolygon, hdp]
  exact ⟨heval, by rw [heval]; simp⟩

/-- C8 (amended): `simplifyPolygon(ring, 0)` returns the ring unchanged
whenever every interior point deviates *strictly* from every recursion
chord — in particular for any ring of pairwise-distinct points with no
three collinear.  Points whose deviation is exactly zero (collinear runs)
are dropped, because the retention test `maxDist > tolerance` is strict. -/
theorem C8_simplify_zero_amended (ring : List RPoint) (hlen : 3 ≤ ring.length)
    (hdist : ∀ i j, i < j → j < ring.length →
      ring.getD i (0, 0) ≠ ring.getD j (0, 0))
    (hcol : ∀ i j k2, i < j → j < k2 → k2 < ring.length →
      ¬ Collinear3 (ring.getD i (0, 0)) (ring.getD j (0, 0))
        (ring.getD k2 (0, 0))) :
    simplifyPolygon [ring] 0 = [ring] := by
  show (if ring.length < 3 then [ring] else [douglasPeucker ring.length ring 0]) = [ring]
  rw [if_neg (by omega), douglasPeucker_id ring.length ring le_rfl hdist hcol]

/-- C8, witness: the non-degenerate triangle ring `[(1,5), (3,5), (2,6)]`
survives `simplifyPolygon` at tolerance `0` unchanged. -/
theorem C8_simplify_zero_witness :
    simplifyPolygon [[((1 : ℝ), (5 : ℝ)), (3, 5), (2, 6)]] 0
      = [[((1 : ℝ), (5 : ℝ)), (3, 5), (2, 6)]] := by
  refine C8_simplify_zero_amended [((1 : ℝ), (5 : ℝ)), (3, 5), (2, 6)] (by simp) ?_ ?_
  · intro i j hij hj
    simp only [List.length_cons, List.length_nil] at hj
    interval_cases j <;> interval_cases i <;>
      norm_num [List.getD, Prod.ext_iff]
  · intro i j k2 hij hjk hk
    simp only [List.length_cons, List.length_nil] at hk
    interval_cases k2 <;> interval_cases j <;> interval_cases i <;>
      norm_num [List.getD, Collinear3]

end MapTiles
